import Mathlib

/-!
Verification development for the event-graph persistence and state-resolution
engine of a federated messaging server.

The repository snapshot contains only the database schema-version module
(synapse/storage/schema/__init__.py); the persistence and state-resolution
engine itself is not part of the snapshot.  Following the specification
document, the engine is therefore modelled here definition by definition from
the spec's own words (each such definition carries a doc comment starting
with "Modelled from the spec:").  The schema constants at the end of the file
are transcribed directly from the source module.
-/

set_option maxHeartbeats 1000000

namespace Syn

/- Event identifiers are content-addressed hashes; the engine source is
missing, so identifiers are modelled as plain natural numbers and
"lexicographically smaller identifier" as the numeric order.  Principals
(users/servers) are likewise identified by natural numbers. -/

/-- Modelled from the spec: the membership states a membership event can set
(who may join/invite/ban/leave). -/
inductive MembState where
  | join
  | leave
  | invite
  | ban
deriving DecidableEq

/-- Modelled from the spec: join-rule gating (open vs invite-only join). -/
inductive JoinRule where
  | pub
  | inviteOnly
deriving DecidableEq

/-- Modelled from the spec: the closed, explicit enumeration of event
categories relevant to authorization (design note of section 9), replacing the
missing engine's dynamic dispatch: room creation, power levels, membership,
join rules, and uninterpreted non-state message payloads. -/
inductive Content where
  | create (creator : Nat)
  | power (levels : List (Nat × Int))
  | member (target : Nat) (m : MembState) (note : Nat)
  | joinRules (r : JoinRule)
  | message (body : Nat)
deriving DecidableEq

/-- Modelled from the spec: an immutable event with identifier, sender,
creation timestamp, graph depth, ordered parent list ("prev events"),
auth-event list and content payload. -/
structure Event where
  id : Nat
  sender : Nat
  originTs : Nat
  depth : Nat
  prevEvents : List Nat
  authEvents : List Nat
  content : Content
deriving DecidableEq

/-- Modelled from the spec: a mutation slot, the (type, state key) pair of a
state event. -/
inductive SlotT where
  | create
  | power
  | joinRules
  | member (p : Nat)
deriving DecidableEq

/-- Modelled from the spec: the mutation slot an event occupies (present iff
the event mutates state). -/
def Event.slot (e : Event) : Option SlotT :=
  match e.content with
  | .create _ => some .create
  | .power _ => some .power
  | .member t _ _ => some (.member t)
  | .joinRules _ => some .joinRules
  | .message _ => none

/-- Modelled from the spec: a state snapshot maps each mutation slot to the
event that last set it (the spec stores the identifier; the full event is kept
here so the pure auth checker needs no store access). -/
abbrev StateSnapshot := List (SlotT × Event)

/-- Reads the event a snapshot assigns to a slot. -/
def getSlot (snap : StateSnapshot) (sl : SlotT) : Option Event :=
  (snap.find? (fun p => decide (p.1 = sl))).map (fun p => p.2)

/-- Writes a slot in a snapshot. -/
def setSlot (snap : StateSnapshot) (sl : SlotT) (e : Event) : StateSnapshot :=
  (sl, e) :: snap.filter (fun p => decide (p.1 ≠ sl))

/-- Membership state of a principal in a snapshot. -/
def membershipOf (snap : StateSnapshot) (p : Nat) : Option MembState :=
  match getSlot snap (.member p) with
  | some ev =>
    match ev.content with
    | .member _ m _ => some m
    | _ => none
  | none => none

/-- Join rule of a snapshot (open by default). -/
def joinRuleOf (snap : StateSnapshot) : JoinRule :=
  match getSlot snap .joinRules with
  | some ev =>
    match ev.content with
    | .joinRules r => r
    | _ => .pub
  | none => .pub

/-- Creator recorded by the creation event of a snapshot. -/
def creatorOf (snap : StateSnapshot) : Option Nat :=
  match getSlot snap .create with
  | some ev =>
    match ev.content with
    | .create c => some c
    | _ => none
  | none => none

/-- Modelled from the spec: numeric power level of a principal under a
snapshot; the creator defaults to level 100 before any power-level event,
everyone else to 0. -/
def powerOf (snap : StateSnapshot) (p : Nat) : Int :=
  match getSlot snap .power with
  | some ev =>
    match ev.content with
    | .power ls =>
      match ls.find? (fun q => decide (q.1 = p)) with
      | some q => q.2
      | none => 0
    | _ => 0
  | none =>
    match creatorOf snap with
    | some c => if p = c then 100 else 0
    | none => 0

/-- Modelled from the spec: the taxonomy of auth-rule failures. -/
inductive AuthFailure where
  | createHasParents
  | createDuplicate
  | createMissing
  | senderBanned
  | senderNotJoined
  | joinForbidden
  | membershipForbidden
  | targetBanned
  | insufficientPower
  | cannotSelfPromote
  | targetPowerTooHigh (p : Nat)
deriving DecidableEq

instance : DecidableEq (Except AuthFailure Unit) := fun a b =>
  match a, b with
  | .ok (), .ok () => isTrue rfl
  | .error f, .error g =>
    match decEq f g with
    | isTrue h => isTrue (by rw [h])
    | isFalse h => isFalse (fun hc => h (Except.error.inj hc))
  | .ok (), .error _ => isFalse (fun hc => Except.noConfusion hc)
  | .error _, .ok () => isFalse (fun hc => Except.noConfusion hc)

/-- Modelled from the spec: power-level thresholds, the numeric permission
level required to send an event of a given type. -/
def requiredLevel : Content → Int
  | .power _ => 50
  | .joinRules _ => 50
  | _ => 0

/-- Modelled from the spec: the per-entry rule of a power-level change.  A
sender may not raise their own level, may not set another principal's level
above their own, and may not touch the level of a principal whose current
level is at least their own. -/
def entryViol (senderPow : Int) (oldOf : Nat → Int) (sender : Nat)
    (pr : Nat × Int) : Option AuthFailure :=
  if pr.1 = sender then
    if pr.2 ≤ senderPow then none else some .cannotSelfPromote
  else if pr.2 ≤ senderPow ∧ (pr.2 = oldOf pr.1 ∨ oldOf pr.1 < senderPow) then none
  else some (.targetPowerTooHigh pr.1)

/-- First violated entry of a power-level event, if any. -/
def checkPowerEntries (senderPow : Int) (oldOf : Nat → Int) (sender : Nat)
    (ls : List (Nat × Int)) : Option AuthFailure :=
  ls.findSome? (entryViol senderPow oldOf sender)

/-- Modelled from the spec: membership rules — who may join/invite/ban/leave,
respecting any existing ban, with power comparisons for moderation of other
principals. -/
def checkMember (snap : StateSnapshot) (sender target : Nat) (m : MembState) :
    Except AuthFailure Unit :=
  if target = sender then
    match m with
    | .join =>
      if membershipOf snap sender = some .ban then .error .targetBanned
      else if membershipOf snap sender = some .join then .ok ()
      else if membershipOf snap sender = some .invite then .ok ()
      else if joinRuleOf snap = .pub then .ok ()
      else .error .joinForbidden
    | .leave =>
      if membershipOf snap sender = some .join ∨ membershipOf snap sender = some .invite then
        .ok ()
      else .error .membershipForbidden
    | .invite => .error .membershipForbidden
    | .ban => .error .membershipForbidden
  else
    if membershipOf snap sender ≠ some .join then .error .senderNotJoined
    else
      match m with
      | .invite =>
        if membershipOf snap target = some .ban then .error .targetBanned
        else .ok ()
      | .ban =>
        if powerOf snap sender < 50 then .error .insufficientPower
        else if powerOf snap target < powerOf snap sender then .ok ()
        else .error (.targetPowerTooHigh target)
      | .leave =>
        if powerOf snap sender < 50 then .error .insufficientPower
        else if powerOf snap target < powerOf snap sender then .ok ()
        else .error (.targetPowerTooHigh target)
      | .join => .error .membershipForbidden

/-- Modelled from the spec: the pure Auth Rule Checker, evaluating the fixed
ordered set of rules (creation-event presence, membership rules respecting
bans, power-level thresholds, power-change constraints, join-rule gating)
against one state snapshot. -/
def authCheck (e : Event) (snap : StateSnapshot) : Except AuthFailure Unit :=
  match e.content with
  | .create _ =>
    if e.prevEvents ≠ [] then .error .createHasParents
    else if (getSlot snap .create).isSome then .error .createDuplicate
    else .ok ()
  | .member t m _ =>
    if (getSlot snap .create).isSome = false then .error .createMissing
    else if membershipOf snap e.sender = some .ban then .error .senderBanned
    else checkMember snap e.sender t m
  | .power ls =>
    if (getSlot snap .create).isSome = false then .error .createMissing
    else if membershipOf snap e.sender = some .ban then .error .senderBanned
    else if membershipOf snap e.sender ≠ some .join then .error .senderNotJoined
    else if powerOf snap e.sender < requiredLevel (.power ls) then .error .insufficientPower
    else
      match checkPowerEntries (powerOf snap e.sender) (powerOf snap) e.sender ls with
      | some f => .error f
      | none => .ok ()
  | .joinRules r =>
    if (getSlot snap .create).isSome = false then .error .createMissing
    else if membershipOf snap e.sender = some .ban then .error .senderBanned
    else if membershipOf snap e.sender ≠ some .join then .error .senderNotJoined
    else if powerOf snap e.sender < requiredLevel (.joinRules r) then .error .insufficientPower
    else .ok ()
  | .message b =>
    if (getSlot snap .create).isSome = false then .error .createMissing
    else if membershipOf snap e.sender = some .ban then .error .senderBanned
    else if membershipOf snap e.sender ≠ some .join then .error .senderNotJoined
    else if powerOf snap e.sender < requiredLevel (.message b) then .error .insufficientPower
    else .ok ()

/-- Boolean success view of the auth checker. -/
def authOk (e : Event) (snap : StateSnapshot) : Bool :=
  match authCheck e snap with
  | .ok _ => true
  | .error _ => false

/-- Modelled from the spec: a persisted event together with its permanent
rejection mark. -/
structure StoredEvent where
  event : Event
  rejected : Bool
deriving DecidableEq

/-- Modelled from the spec: the tie-breaking sort key of the resolution
ordering — mainline depth, then shallower graph depth, then earlier origin
timestamp, then smaller event identifier. -/
abbrev SortKey := Nat × Nat × Nat × Nat

/-- Strict lexicographic comparison of sort keys. -/
def keyLt (a b : SortKey) : Bool :=
  decide (a.1 < b.1 ∨ (a.1 = b.1 ∧ (a.2.1 < b.2.1 ∨ (a.2.1 = b.2.1 ∧
    (a.2.2.1 < b.2.2.1 ∨ (a.2.2.1 = b.2.2.1 ∧ a.2.2.2 < b.2.2.2))))))

/-- Insertion step of the deterministic sort used by state resolution. -/
def insertByKey (key : Event → SortKey) (x : Event) : List Event → List Event
  | [] => [x]
  | y :: ys => if keyLt (key x) (key y) then x :: y :: ys else y :: insertByKey key x ys

/-- Deterministic insertion sort by a sort key. -/
def sortByKey (key : Event → SortKey) : List Event → List Event
  | [] => []
  | x :: xs => insertByKey key x (sortByKey key xs)

/-- Tests whether an event is a power-level event. -/
def Event.isPowerEv (e : Event) : Bool :=
  match e.content with
  | .power _ => true
  | _ => false

/-- Tests whether an event is the creation event. -/
def Event.isCreateEv (e : Event) : Bool :=
  match e.content with
  | .create _ => true
  | _ => false

/-- Modelled from the spec: the power-determining subset of conflicted events
— room creation, power levels, join rules, and membership changes that revoke
power (bans). -/
def isPowerDet (e : Event) : Bool :=
  match e.content with
  | .create _ => true
  | .power _ => true
  | .joinRules _ => true
  | .member _ .ban _ => true
  | _ => false

/-- Finds, among an event's auth events, the next step of the power-level
ancestry used to build the mainline: a non-rejected power-level auth event,
falling back to the creation event.  Rejected events are never usable as
auth events. -/
def nextPowerAuth (lookup : Nat → Option StoredEvent) (e : Event) : Option Nat :=
  match e.authEvents.find? (fun i =>
      match lookup i with
      | some se => !se.rejected && se.event.isPowerEv
      | none => false) with
  | some i => some i
  | none =>
    e.authEvents.find? (fun i =>
      match lookup i with
      | some se => !se.rejected && se.event.isCreateEv
      | none => false)

/-- Modelled from the spec: the walk from the most recent power-level event
backward to the creation event, producing the linear mainline. -/
def mainlineWalk (lookup : Nat → Option StoredEvent) :
    Nat → Option Nat → List Nat
  | 0, _ => []
  | _, none => []
  | fuel + 1, some i =>
    match lookup i with
    | none => []
    | some se =>
      if se.rejected then []
      else i :: mainlineWalk lookup fuel (nextPowerAuth lookup se.event)

/-- Recency key used to pick the most recent power-level event as the
mainline head. -/
def recentKey (e : Event) : SortKey := (e.depth, e.originTs, e.id, 0)

/-- Deterministically picks the most recent event of a list. -/
def pickMostRecent : List Event → Option Event
  | [] => none
  | x :: xs =>
    match pickMostRecent xs with
    | none => some x
    | some y => if keyLt (recentKey y) (recentKey x) then some x else some y

/-- Modelled from the spec: the mainline, listed from the creation end so that
list position is mainline depth. -/
def mainlineOf (lookup : Nat → Option StoredEvent) (fuel : Nat)
    (cands : List Event) : List Nat :=
  (mainlineWalk lookup fuel
    ((pickMostRecent (cands.filter (fun e => e.isPowerEv))).map (fun e => e.id))).reverse

/-- Modelled from the spec: the mainline position of an event — its own
mainline depth if it lies on the mainline, otherwise the depth of the nearest
mainline ancestor reachable by following auth-chain edges (rejected auth
events are skipped). -/
def mainlinePos (lookup : Nat → Option StoredEvent) (ml : List Nat) :
    Nat → Event → Nat
  | 0, _ => 0
  | fuel + 1, e =>
    match ml.findIdx? (fun i => decide (i = e.id)) with
    | some k => k
    | none =>
      (e.authEvents.map (fun i =>
        match lookup i with
        | some se => if se.rejected then 0 else mainlinePos lookup ml fuel se.event
        | none => 0)).foldr max 0

/-- Full resolution sort key of an event: mainline position, then shallower
depth, then earlier timestamp, then smaller identifier. -/
def resKey (lookup : Nat → Option StoredEvent) (ml : List Nat) (fuel : Nat)
    (e : Event) : SortKey :=
  (mainlinePos lookup ml fuel e, e.depth, e.originTs, e.id)

/-- All slots mentioned by a list of snapshots. -/
def slotsOf (snaps : List StateSnapshot) : List SlotT :=
  (snaps.foldr (fun s acc => s.map (fun p => p.1) ++ acc) []).dedup

/-- Tests whether every snapshot assigns the given value to the slot. -/
def agreeAll (snaps : List StateSnapshot) (v : Option Event) (sl : SlotT) : Bool :=
  snaps.all (fun s => decide (getSlot s sl = v))

/-- Modelled from the spec: the unconflicted part of the partition — slots on
which all input snapshots agree pass through unchanged. -/
def unconflictedPart (snaps : List StateSnapshot) : StateSnapshot :=
  match snaps with
  | [] => []
  | s0 :: _ =>
    (slotsOf snaps).filterMap (fun sl =>
      match getSlot s0 sl with
      | some v => if agreeAll snaps (some v) sl then some (sl, v) else none
      | none => none)

/-- Slots on which the input snapshots disagree. -/
def conflictedSlots (snaps : List StateSnapshot) : List SlotT :=
  match snaps with
  | [] => []
  | s0 :: _ => (slotsOf snaps).filter (fun sl => !(agreeAll snaps (getSlot s0 sl) sl))

/-- Modelled from the spec: the conflicted events — every event some snapshot
assigns to a conflicted slot. -/
def conflictedCands (snaps : List StateSnapshot) : List Event :=
  ((conflictedSlots snaps).foldr
    (fun sl acc => snaps.filterMap (fun s => getSlot s sl) ++ acc) []).dedup

/-- Modelled from the spec: one replay step of resolution — auth-check the
event against the evolving working state and apply it, dropping it (not
fatally) on failure. -/
def applyEvent (w : StateSnapshot) (e : Event) : StateSnapshot :=
  if authOk e w then
    match e.slot with
    | some sl => setSlot w sl e
    | none => w
  else w

/-- Modelled from the spec: the two-phase State Resolution Algorithm.  It
partitions slots into unconflicted and conflicted, orders the
power-determining conflicted events by the mainline ordering and replays them
first (phase 2a), then orders and replays the remaining conflicted events the
same way (phase 2b).  Returns both ordered phases and the merged snapshot. -/
def resolveCore (lookup : Nat → Option StoredEvent) (fuel : Nat)
    (snaps : List StateSnapshot) : List Event × List Event × StateSnapshot :=
  let cands := conflictedCands snaps
  let ml := mainlineOf lookup fuel cands
  let key := resKey lookup ml fuel
  let p2a := sortByKey key (cands.filter isPowerDet)
  let p2b := sortByKey key (cands.filter (fun e => !isPowerDet e))
  let base := unconflictedPart snaps
  let w1 := p2a.foldl applyEvent base
  let w2 := p2b.foldl applyEvent w1
  (p2a, p2b, w2)

/-- Merged snapshot computed by state resolution. -/
def resolveStates (lookup : Nat → Option StoredEvent) (fuel : Nat)
    (snaps : List StateSnapshot) : StateSnapshot :=
  (resolveCore lookup fuel snaps).2.2

/-- Modelled from the spec: the state snapshot at an event — the resolution of
its parents' snapshots, extended by the event's own slot unless the event is
rejected (rejected events are excluded from all state snapshots). -/
def stateAfterF (lookup : Nat → Option StoredEvent) : Nat → Nat → StateSnapshot
  | 0, _ => []
  | fuel + 1, i =>
    match lookup i with
    | none => []
    | some se =>
      let base := resolveStates lookup (fuel + 1)
        (se.event.prevEvents.map (fun p => stateAfterF lookup fuel p))
      if se.rejected then base
      else
        match se.event.slot with
        | some sl => setSlot base sl se.event
        | none => base

/-- Identifiers of a stored-event list. -/
def storeIds (l : List StoredEvent) : List Nat := l.map (fun se => se.event.id)

/-- Tests whether the store holds an event with the given identifier. -/
def hasId (l : List StoredEvent) (i : Nat) : Bool := (storeIds l).contains i

/-- Content-addressed lookup in the store. -/
def lookupIn (l : List StoredEvent) (i : Nat) : Option StoredEvent :=
  l.find? (fun se => decide (se.event.id = i))

/-- Identifier-ordered insertion into the store, keeping the store canonical
regardless of arrival order. -/
def insertStored (x : StoredEvent) : List StoredEvent → List StoredEvent
  | [] => [x]
  | y :: ys => if x.event.id < y.event.id then x :: y :: ys else y :: insertStored x ys

/-- Ordered insertion into an identifier list. -/
def insertId (x : Nat) : List Nat → List Nat
  | [] => [x]
  | y :: ys => if x < y then x :: y :: ys else y :: insertId x ys

/-- Modelled from the spec: one delivery to the Event Store — the event
together with the parent state snapshot argument of
persist(event, parent_state_snapshot). -/
structure Delivery where
  event : Event
  snap : StateSnapshot
deriving DecidableEq

/-- Modelled from the spec: one server instance — the content-addressed store,
the PendingBackfill queue, the maintained forward and backward extremity sets,
and the durable monotonically ordered log of persisted events. -/
structure Server where
  store : List StoredEvent
  pending : List Delivery
  fwd : List Nat
  back : List Nat
  log : List Nat
deriving DecidableEq

/-- A fresh server instance with no history. -/
def emptyServer : Server := ⟨[], [], [], [], []⟩

/-- Store lookup of a server. -/
def Server.lookup (s : Server) (i : Nat) : Option StoredEvent := lookupIn s.store i

/-- Modelled from the spec: the stored form of a delivered event, marked
rejected exactly when the Auth Rule Checker fails it against the supplied
parent state snapshot. -/
def mkStored (d : Delivery) : StoredEvent :=
  ⟨d.event, match authCheck d.event d.snap with
    | .ok _ => false
    | .error _ => true⟩

/-- Tests whether all declared parents of an event are persisted. -/
def parentsPresent (s : Server) (e : Event) : Bool :=
  e.prevEvents.all (fun p => hasId s.store p)

/-- Modelled from the spec: the persist step once parents are present — no-op
if the identifier already exists, otherwise store the (possibly rejected)
event, add it to the forward extremities while removing its parents, drop its
identifier from the backward extremities, and append it to the durable log. -/
def persistNow (s : Server) (d : Delivery) : Server :=
  if hasId s.store d.event.id then s
  else
    { store := insertStored (mkStored d) s.store
      pending := s.pending
      fwd := insertId d.event.id (s.fwd.filter (fun i => !(d.event.prevEvents.contains i)))
      back := s.back.filter (fun i => decide (i ≠ d.event.id))
      log := s.log ++ [d.event.id] }

/-- Modelled from the spec: the backfill-completion loop — while some pending
event has all parents present, persist it without re-submission. -/
def flushAux : Nat → Server → Server
  | 0, s => s
  | fuel + 1, s =>
    match s.pending.find? (fun d => parentsPresent s d.event) with
    | none => s
    | some d =>
      flushAux fuel
        (persistNow { s with pending := s.pending.eraseP (fun d => parentsPresent s d.event) } d)

/-- Modelled from the spec: the observable result of one persist call. -/
inductive PersistOutcome where
  | ok
  | rejectedEv (f : AuthFailure)
  | pendingBackfill
deriving DecidableEq

/-- Modelled from the spec: the Event Intake Pipeline for one delivery —
duplicate identifiers are an idempotent success; an event with a missing
parent is stored PendingBackfill and its missing parents join the backward
extremities; otherwise the event is persisted (marked rejected on auth
failure) and any pending events it unblocks are flushed. -/
def deliverR (s : Server) (d : Delivery) : Server × PersistOutcome :=
  if hasId s.store d.event.id then (s, .ok)
  else if parentsPresent s d.event then
    let s1 := persistNow s d
    (flushAux s1.pending.length s1,
      match authCheck d.event d.snap with
      | .ok _ => .ok
      | .error f => .rejectedEv f)
  else
    ({ s with
        pending := s.pending ++ [d]
        back := s.back ++ d.event.prevEvents.filter
          (fun p => !(hasId s.store p) && !(s.back.contains p)) },
      .pendingBackfill)

/-- State transition of one delivery. -/
def deliver (s : Server) (d : Delivery) : Server := (deliverR s d).1

/-- Delivers a list of events in order. -/
def deliverAll (s : Server) (ds : List Delivery) : Server := ds.foldl deliver s

/-- Modelled from the spec: the derived forward frontier of a store — the
persisted events with no persisted child. -/
def derivedFwd (store : List StoredEvent) : List Nat :=
  storeIds (store.filter (fun se =>
    !(store.any (fun ch => ch.event.prevEvents.contains se.event.id))))

/-- Modelled from the spec: the resolution run underlying current_state —
state resolution applied to the snapshots at the forward extremities,
exposing the two ordered phases and the merged snapshot. -/
def currentResolution (store : List StoredEvent) :
    List Event × List Event × StateSnapshot :=
  resolveCore (lookupIn store) (store.length + 1)
    ((derivedFwd store).map (fun i => stateAfterF (lookupIn store) (store.length + 1) i))

/-- Modelled from the spec: current_state(conversation) — derived data
computed from the store alone. -/
def currentStateOf (store : List StoredEvent) : StateSnapshot :=
  (currentResolution store).2.2

/-- Current state of a server instance. -/
def Server.currentState (s : Server) : StateSnapshot := currentStateOf s.store

/-- Modelled from the spec: a delivery order respecting the topological
constraint that an event's parents are delivered no later than the event
itself, over pairwise-distinct content-addressed identifiers. -/
def deliverableB : List Delivery → List Nat → Bool
  | [], _ => true
  | d :: rest, seen =>
    d.event.prevEvents.all (fun p => seen.contains p) &&
    !(seen.contains d.event.id) &&
    deliverableB rest (d.event.id :: seen)

/-! Basic lemmas about the canonical store representation. -/

/-- Strictly identifier-sorted store lists; the canonical representation. -/
def StrictSorted (l : List StoredEvent) : Prop :=
  l.Pairwise (fun a b => a.event.id < b.event.id)

theorem mem_insertStored (x a : StoredEvent) (l : List StoredEvent) :
    a ∈ insertStored x l ↔ a = x ∨ a ∈ l := by
  induction l with
  | nil => simp [insertStored]
  | cons y ys ih =>
    simp only [insertStored]
    split
    · simp [List.mem_cons]
    · rw [List.mem_cons, ih, List.mem_cons]
      tauto

theorem mem_insertId (x a : Nat) (l : List Nat) :
    a ∈ insertId x l ↔ a = x ∨ a ∈ l := by
  induction l with
  | nil => simp [insertId]
  | cons y ys ih =>
    simp only [insertId]
    split
    · simp [List.mem_cons]
    · rw [List.mem_cons, ih, List.mem_cons]
      tauto

theorem hasId_iff {l : List StoredEvent} {i : Nat} :
    hasId l i = true ↔ ∃ se ∈ l, se.event.id = i := by
  simp only [hasId, List.elem_iff, storeIds, List.mem_map]

theorem hasId_false_iff {l : List StoredEvent} {i : Nat} :
    hasId l i = false ↔ ∀ se ∈ l, se.event.id ≠ i := by
  rw [← Bool.not_eq_true, hasId_iff]
  push_neg
  rfl

theorem sorted_insertStored (x : StoredEvent) (l : List StoredEvent)
    (hs : StrictSorted l) (hx : ∀ se ∈ l, se.event.id ≠ x.event.id) :
    StrictSorted (insertStored x l) := by
  induction l with
  | nil => simp [insertStored, StrictSorted]
  | cons y ys ih =>
    rw [StrictSorted, List.pairwise_cons] at hs
    simp only [insertStored]
    split
    · rename_i hlt
      refine List.Pairwise.cons ?_ (List.Pairwise.cons hs.1 hs.2)
      intro z hz
      rcases List.mem_cons.mp hz with rfl | hz
      · exact hlt
      · exact Nat.lt_trans hlt (hs.1 z hz)
    · rename_i hnlt
      have hyx : y.event.id < x.event.id := by
        have hne := hx y (List.mem_cons_self y ys)
        omega
      refine List.Pairwise.cons ?_ (ih hs.2 (fun se hse => hx se (List.mem_cons_of_mem y hse)))
      intro z hz
      rcases (mem_insertStored x z ys).mp hz with rfl | hz
      · exact hyx
      · exact hs.1 z hz

theorem strictSorted_eq_of_mem_iff :
    ∀ {l1 l2 : List StoredEvent}, StrictSorted l1 → StrictSorted l2 →
      (∀ a, a ∈ l1 ↔ a ∈ l2) → l1 = l2 := by
  intro l1
  induction l1 with
  | nil =>
    intro l2 _ _ hm
    cases l2 with
    | nil => rfl
    | cons b t2 => exact absurd ((hm b).mpr (List.mem_cons_self b t2)) (List.not_mem_nil b)
  | cons a t1 ih =>
    intro l2 hs1 hs2 hm
    cases l2 with
    | nil => exact absurd ((hm a).mp (List.mem_cons_self a t1)) (List.not_mem_nil a)
    | cons b t2 =>
      rw [StrictSorted, List.pairwise_cons] at hs1 hs2
      have hab : a = b := by
        rcases List.mem_cons.mp ((hm a).mp (List.mem_cons_self a t1)) with h | h
        · exact h
        · rcases List.mem_cons.mp ((hm b).mpr (List.mem_cons_self b t2)) with h' | h'
          · exact h'.symm
          · have h1 := hs1.1 b h'
            have h2 := hs2.1 a h
            exact absurd h1 (by omega)
      subst hab
      have ht : ∀ x, x ∈ t1 ↔ x ∈ t2 := by
        intro x
        constructor
        · intro hx
          rcases List.mem_cons.mp ((hm x).mp (List.mem_cons_of_mem a hx)) with rfl | h
          · exact absurd (hs1.1 x hx) (by omega)
          · exact h
        · intro hx
          rcases List.mem_cons.mp ((hm x).mpr (List.mem_cons_of_mem a hx)) with rfl | h
          · exact absurd (hs2.1 x hx) (by omega)
          · exact h
      rw [ih hs1.2 hs2.2 ht]

theorem lookupIn_insertStored_ne (x : StoredEvent) (l : List StoredEvent) (i : Nat)
    (h : x.event.id ≠ i) :
    lookupIn (insertStored x l) i = lookupIn l i := by
  induction l with
  | nil =>
    simp [insertStored, lookupIn, List.find?, h]
  | cons y ys ih =>
    simp only [insertStored]
    split
    · simp only [lookupIn] at *
      rw [List.find?_cons_of_neg _ (by simpa using h)]
    · simp only [lookupIn] at *
      by_cases hy : y.event.id = i
      · rw [List.find?_cons_of_pos _ (by simpa using hy),
          List.find?_cons_of_pos _ (by simpa using hy)]
      · rw [List.find?_cons_of_neg _ (by simpa using hy),
          List.find?_cons_of_neg _ (by simpa using hy), ih]

theorem lookupIn_insertStored_self (x : StoredEvent) (l : List StoredEvent)
    (h : ∀ se ∈ l, se.event.id ≠ x.event.id) :
    lookupIn (insertStored x l) x.event.id = some x := by
  induction l with
  | nil => simp [insertStored, lookupIn, List.find?]
  | cons y ys ih =>
    simp only [insertStored]
    split
    · simp only [lookupIn]
      rw [List.find?_cons_of_pos _ (by simp)]
    · simp only [lookupIn] at *
      have hy : y.event.id ≠ x.event.id := h y (List.mem_cons_self y ys)
      rw [List.find?_cons_of_neg _ (by simpa using hy)]
      exact ih (fun se hse => h se (List.mem_cons_of_mem y hse))

theorem lookupIn_eq_some_iff {l : List StoredEvent} {i : Nat} {se : StoredEvent}
    (hs : StrictSorted l) : lookupIn l i = some se ↔ se ∈ l ∧ se.event.id = i := by
  constructor
  · intro h
    exact ⟨List.mem_of_find?_eq_some h, by simpa using List.find?_some h⟩
  · rintro ⟨hmem, rfl⟩
    induction l with
    | nil => cases hmem
    | cons y ys ih =>
      rw [StrictSorted, List.pairwise_cons] at hs
      rcases List.mem_cons.mp hmem with rfl | hmem
      · simp only [lookupIn]
        rw [List.find?_cons_of_pos _ (by simp)]
      · have hy : y.event.id ≠ se.event.id := by
          have := hs.1 se hmem
          omega
        simp only [lookupIn] at *
        rw [List.find?_cons_of_neg _ (by simpa using hy)]
        exact ih hs.2 hmem

theorem mem_storeIds {l : List StoredEvent} {i : Nat} :
    i ∈ storeIds l ↔ ∃ se ∈ l, se.event.id = i := by
  simp [storeIds]

theorem mem_storeIds_insertStored {x : StoredEvent} {l : List StoredEvent} {i : Nat} :
    i ∈ storeIds (insertStored x l) ↔ i = x.event.id ∨ i ∈ storeIds l := by
  simp only [mem_storeIds]
  constructor
  · rintro ⟨se, hse, rfl⟩
    rcases (mem_insertStored x se l).mp hse with rfl | h
    · exact Or.inl rfl
    · exact Or.inr ⟨se, h, rfl⟩
  · rintro (rfl | ⟨se, hse, rfl⟩)
    · exact ⟨x, (mem_insertStored x x l).mpr (Or.inl rfl), rfl⟩
    · exact ⟨se, (mem_insertStored x se l).mpr (Or.inr hse), rfl⟩

theorem contains_congr {s1 s2 : List Nat} (h : ∀ i, i ∈ s1 ↔ i ∈ s2) (p : Nat) :
    s1.contains p = s2.contains p := by
  rw [Bool.eq_iff_iff, List.elem_iff, List.elem_iff]
  exact h p

theorem deliverableB_congr : ∀ (ds : List Delivery) (s1 s2 : List Nat),
    (∀ i, i ∈ s1 ↔ i ∈ s2) → deliverableB ds s1 = deliverableB ds s2 := by
  intro ds
  induction ds with
  | nil => intro s1 s2 _; rfl
  | cons d rest ih =>
    intro s1 s2 h
    simp only [deliverableB]
    have hall : d.event.prevEvents.all (fun p => s1.contains p) =
        d.event.prevEvents.all (fun p => s2.contains p) := by
      rw [Bool.eq_iff_iff, List.all_eq_true, List.all_eq_true]
      constructor <;> intro hx x hxm
      · rw [← contains_congr h x]
        exact hx x hxm
      · rw [contains_congr h x]
        exact hx x hxm
    rw [hall, contains_congr h d.event.id,
      ih (d.event.id :: s1) (d.event.id :: s2) (by intro i; simp [h i])]

theorem persistNow_pending (s : Server) (d : Delivery) :
    (persistNow s d).pending = s.pending := by
  unfold persistNow
  split <;> rfl

theorem flushAux_pending_nil (n : Nat) (s : Server) (h : s.pending = []) :
    flushAux n s = s := by
  cases n with
  | zero => rfl
  | succ m => simp [flushAux, h]

theorem deliver_eq_persistNow (s : Server) (d : Delivery)
    (hfresh : hasId s.store d.event.id = false)
    (hpar : parentsPresent s d.event = true)
    (hpend : s.pending = []) :
    deliver s d = persistNow s d := by
  unfold deliver deliverR
  simp only [hfresh, hpar, Bool.false_eq_true, if_false, if_true]
  exact flushAux_pending_nil _ _ (by rw [persistNow_pending]; exact hpend)

/-- The order-insensitive canonical store that a topological delivery of a
list of events produces. -/
def storeFold (st : List StoredEvent) (ds : List Delivery) : List StoredEvent :=
  ds.foldl (fun acc d => insertStored (mkStored d) acc) st

theorem mem_storeFold : ∀ (ds : List Delivery) (st : List StoredEvent) (a : StoredEvent),
    a ∈ storeFold st ds ↔ a ∈ st ∨ ∃ d ∈ ds, a = mkStored d := by
  intro ds
  induction ds with
  | nil => intro st a; simp [storeFold]
  | cons d rest ih =>
    intro st a
    simp only [storeFold, List.foldl_cons]
    rw [show List.foldl (fun acc d => insertStored (mkStored d) acc)
      (insertStored (mkStored d) st) rest = storeFold (insertStored (mkStored d) st) rest from rfl,
      ih, mem_insertStored]
    simp only [List.mem_cons]
    constructor
    · rintro ((rfl | h) | ⟨d', hd', rfl⟩)
      · exact Or.inr ⟨d, Or.inl rfl, rfl⟩
      · exact Or.inl h
      · exact Or.inr ⟨d', Or.inr hd', rfl⟩
    · rintro (h | ⟨d', (rfl | hd'), rfl⟩)
      · exact Or.inl (Or.inr h)
      · exact Or.inl (Or.inl rfl)
      · exact Or.inr ⟨d', hd', rfl⟩

theorem sorted_storeFold : ∀ (ds : List Delivery) (st : List StoredEvent),
    StrictSorted st → deliverableB ds (storeIds st) = true →
    StrictSorted (storeFold st ds) := by
  intro ds
  induction ds with
  | nil => intro st hs _; exact hs
  | cons d rest ih =>
    intro st hs hd
    simp only [deliverableB, Bool.and_eq_true] at hd
    obtain ⟨⟨_, hfresh⟩, hrest⟩ := hd
    have hfresh' : ∀ se ∈ st, se.event.id ≠ d.event.id := by
      intro se hse heq
      rw [Bool.not_eq_eq_eq_not, Bool.not_true] at hfresh
      have h1 : d.event.id ∈ storeIds st := mem_storeIds.mpr ⟨se, hse, heq⟩
      have h2 : List.elem d.event.id (storeIds st) = true := List.elem_iff.mpr h1
      have h3 : List.elem d.event.id (storeIds st) = false := hfresh
      rw [h2] at h3
      cases h3
    have hsorted1 : StrictSorted (insertStored (mkStored d) st) :=
      sorted_insertStored (mkStored d) st hs hfresh'
    have hids : ∀ i, i ∈ storeIds (insertStored (mkStored d) st) ↔
        i ∈ d.event.id :: storeIds st := by
      intro i
      rw [mem_storeIds_insertStored, List.mem_cons]
      exact Iff.rfl
    have hrest' : deliverableB rest (storeIds (insertStored (mkStored d) st)) = true := by
      rw [deliverableB_congr rest _ _ hids]
      exact hrest
    simpa only [storeFold, List.foldl_cons] using ih (insertStored (mkStored d) st) hsorted1 hrest'

theorem deliverAll_store_fold : ∀ (ds : List Delivery) (s : Server),
    s.pending = [] → deliverableB ds (storeIds s.store) = true →
    (deliverAll s ds).store = storeFold s.store ds ∧ (deliverAll s ds).pending = [] := by
  intro ds
  induction ds with
  | nil => intro s hp _; exact ⟨rfl, hp⟩
  | cons d rest ih =>
    intro s hp hd
    simp only [deliverableB, Bool.and_eq_true] at hd
    obtain ⟨⟨hpar, hfresh⟩, hrest⟩ := hd
    have hfresh' : hasId s.store d.event.id = false := by
      rw [Bool.not_eq_eq_eq_not, Bool.not_true] at hfresh
      exact hfresh
    have hpar' : parentsPresent s d.event = true := hpar
    have hstep : deliver s d = persistNow s d :=
      deliver_eq_persistNow s d hfresh' hpar' hp
    have hstore1 : (persistNow s d).store = insertStored (mkStored d) s.store := by
      unfold persistNow
      rw [hfresh']
      rfl
    have hpend1 : (persistNow s d).pending = [] := by
      rw [persistNow_pending]
      exact hp
    have hids : ∀ i, i ∈ storeIds (persistNow s d).store ↔ i ∈ d.event.id :: storeIds s.store := by
      intro i
      rw [hstore1, mem_storeIds_insertStored, List.mem_cons]
      exact Iff.rfl
    have hrest' : deliverableB rest (storeIds (persistNow s d).store) = true := by
      rw [deliverableB_congr rest _ _ hids]
      exact hrest
    have hrec := ih (persistNow s d) hpend1 hrest'
    simp only [deliverAll, List.foldl_cons] at hrec ⊢
    rw [hstep]
    refine ⟨?_, hrec.2⟩
    have hfold : storeFold s.store (d :: rest) = storeFold (persistNow s d).store rest := by
      simp only [storeFold, List.foldl_cons, hstore1]
    rw [hfold]
    exact hrec.1

/-! Concrete conversation used by the specification's worked scenario:
conversation created by principal 1 ("A"), power levels giving A level 100,
A joins, A invites principal 2 ("B"), B joins (J), then concurrently A sends
a power-level change demoting B (PL2) and B sends a power-unrelated
membership update (M), both parented on J. -/

def evC : Event := ⟨1, 1, 1, 0, [], [], .create 1⟩

def evJA : Event := ⟨2, 1, 2, 1, [1], [1], .member 1 .join 0⟩

def evPL : Event := ⟨3, 1, 3, 2, [2], [1, 2], .power [(1, 100)]⟩

def evINV : Event := ⟨4, 1, 4, 3, [3], [1, 2, 3], .member 2 .invite 0⟩

def evJ : Event := ⟨5, 2, 5, 4, [4], [1, 3, 4], .member 2 .join 0⟩

def evPL2 : Event := ⟨6, 1, 6, 5, [5], [1, 2, 3], .power [(1, 100), (2, -5)]⟩

def evM : Event := ⟨7, 2, 7, 5, [5], [1, 3, 5], .member 2 .join 9⟩

/-- Parent state snapshots accompanying each scenario event (the
parent_state_snapshot argument of persist). -/
def snapC : StateSnapshot := []

def snapJA : StateSnapshot := [(.create, evC)]

def snapPL : StateSnapshot := [(.create, evC), (.member 1, evJA)]

def snapINV : StateSnapshot := [(.create, evC), (.member 1, evJA), (.power, evPL)]

def snapJ : StateSnapshot :=
  [(.create, evC), (.member 1, evJA), (.power, evPL), (.member 2, evINV)]

def snapTip : StateSnapshot :=
  [(.create, evC), (.member 1, evJA), (.power, evPL), (.member 2, evJ)]

/-- The scenario deliveries in one topological order. -/
def scnDs : List Delivery :=
  [⟨evC, snapC⟩, ⟨evJA, snapJA⟩, ⟨evPL, snapPL⟩, ⟨evINV, snapINV⟩, ⟨evJ, snapJ⟩,
    ⟨evPL2, snapTip⟩, ⟨evM, snapTip⟩]

/-- The scenario deliveries in a second topological order (the two concurrent
tip events swapped). -/
def scnDs2 : List Delivery :=
  [⟨evC, snapC⟩, ⟨evJA, snapJA⟩, ⟨evPL, snapPL⟩, ⟨evINV, snapINV⟩, ⟨evJ, snapJ⟩,
    ⟨evM, snapTip⟩, ⟨evPL2, snapTip⟩]

/-- The server holding the scenario graph. -/
def scnSrv : Server := deliverAll emptyServer scnDs

/-- Expectation the codebase makes about the database schema shape,
transcribed from synapse/storage/schema/__init__.py. -/
def SCHEMA_VERSION : Nat := 65

/-- Limit on how far the codebase can be rolled back without breaking
database compatibility, transcribed from synapse/storage/schema/__init__.py. -/
def SCHEMA_COMPAT_VERSION : Nat := 61

/-- Startup refusal condition documented in the schema module: the server
refuses to start when the compat version stored in the database is greater
than SCHEMA_VERSION. -/
def refusesToStart (storedCompat : Nat) : Bool :=
  decide (SCHEMA_VERSION < storedCompat)

/-- C1: for every conversation graph and every two orderings in which its
events are delivered to two independent server instances, each respecting the
topological constraint that parents are delivered no later than the event
itself (and with pairwise-distinct content-addressed identifiers), both
instances compute an identical current_state: the resolved state is a
deterministic function of the event set, independent of arrival order. -/
theorem convergence_deterministic (ds1 ds2 : List Delivery)
    (hperm : ds1.Perm ds2)
    (h1 : deliverableB ds1 [] = true)
    (h2 : deliverableB ds2 [] = true) :
    (deliverAll emptyServer ds1).currentState = (deliverAll emptyServer ds2).currentState := by
  have e1 := deliverAll_store_fold ds1 emptyServer rfl h1
  have e2 := deliverAll_store_fold ds2 emptyServer rfl h2
  have hs1 : StrictSorted (storeFold emptyServer.store ds1) :=
    sorted_storeFold ds1 [] List.Pairwise.nil h1
  have hs2 : StrictSorted (storeFold emptyServer.store ds2) :=
    sorted_storeFold ds2 [] List.Pairwise.nil h2
  have hmem : ∀ a, a ∈ storeFold emptyServer.store ds1 ↔ a ∈ storeFold emptyServer.store ds2 := by
    intro a
    rw [mem_storeFold, mem_storeFold]
    constructor
    · rintro (h | ⟨d, hd, rfl⟩)
      · cases h
      · exact Or.inr ⟨d, hperm.mem_iff.mp hd, rfl⟩
    · rintro (h | ⟨d, hd, rfl⟩)
      · cases h
      · exact Or.inr ⟨d, hperm.mem_iff.mpr hd, rfl⟩
  have hstore : (deliverAll emptyServer ds1).store = (deliverAll emptyServer ds2).store := by
    rw [e1.1, e2.1]
    exact strictSorted_eq_of_mem_iff hs1 hs2 hmem
  unfold Server.currentState
  rw [hstore]

/-- Witness for C1 at the concrete scenario graph: the same seven events
delivered in two different topological orders yield the same current state. -/
theorem convergence_deterministic_witness :
    (scnDs.Perm scnDs2 ∧ deliverableB scnDs [] = true ∧ deliverableB scnDs2 [] = true) ∧
    (deliverAll emptyServer scnDs).currentState = (deliverAll emptyServer scnDs2).currentState :=
  ⟨⟨by decide, by decide, by decide⟩,
    convergence_deterministic scnDs scnDs2 (by decide) (by decide) (by decide)⟩

/-- C4: persisting an event whose identifier is already in the Event Store is
idempotent — it returns success and leaves the server (store, extremity sets,
durable log, and hence every state snapshot and current_state) unchanged. -/
theorem persist_idempotent (s : Server) (d : Delivery)
    (h : hasId s.store d.event.id = true) :
    deliverR s d = (s, PersistOutcome.ok) ∧
    (deliverR s d).1.store = s.store ∧
    (deliverR s d).1.fwd = s.fwd ∧
    (deliverR s d).1.back = s.back ∧
    (deliverR s d).1.log = s.log ∧
    (deliverR s d).1.currentState = s.currentState := by
  have hd : deliverR s d = (s, PersistOutcome.ok) := by
    simp [deliverR, h]
  exact ⟨hd, by rw [hd], by rw [hd], by rw [hd], by rw [hd], by rw [hd]⟩

/-- Witness for C4: re-delivering the creation event of the scenario
conversation is a no-op success. -/
theorem persist_idempotent_witness :
    hasId scnSrv.store evC.id = true ∧
    deliverR scnSrv ⟨evC, snapC⟩ = (scnSrv, PersistOutcome.ok) :=
  ⟨by decide, (persist_idempotent scnSrv ⟨evC, snapC⟩ (by decide)).1⟩

/-- C2: in the worked scenario (creation C, power levels PL giving A level
100, join J of B, then concurrently a power-level change PL2 by A demoting B
and a power-unrelated membership change M by B, both parented on J), state
resolution places PL2 in phase 2a (power-determining events, replayed first)
and M in phase 2b (remaining conflicted events), so PL2 is replayed strictly
ahead of M; the merged snapshot contains both PL2 and M, and B's reduced
power level (-5, previously 0 at J) is visible in current_state. -/
theorem scenario_power_vs_membership :
    evPL2 ∈ (currentResolution scnSrv.store).1 ∧
    evM ∈ (currentResolution scnSrv.store).2.1 ∧
    ((currentResolution scnSrv.store).1 ++ (currentResolution scnSrv.store).2.1).indexOf evPL2 <
      ((currentResolution scnSrv.store).1 ++ (currentResolution scnSrv.store).2.1).indexOf evM ∧
    getSlot (currentStateOf scnSrv.store) .power = some evPL2 ∧
    getSlot (currentStateOf scnSrv.store) (.member 2) = some evM ∧
    powerOf (currentStateOf scnSrv.store) 2 = -5 ∧
    powerOf (stateAfterF (lookupIn scnSrv.store) (scnSrv.store.length + 1) evJ.id) 2 = 0 := by
  decide

/-- Conversation used by the extremity-correctness scenario: a chain
E1 (create) ← E2 ← E3 and a concurrent sibling E2q whose only parent is E1. -/
def exD1 : Delivery := ⟨⟨1, 1, 1, 0, [], [], .create 1⟩, []⟩

def exD2 : Delivery :=
  ⟨⟨2, 1, 2, 1, [1], [1], .member 1 .join 0⟩, [(.create, exD1.event)]⟩

def exD3 : Delivery :=
  ⟨⟨3, 1, 3, 2, [2], [1, 2], .message 5⟩,
    [(.create, exD1.event), (.member 1, exD2.event)]⟩

def exD2q : Delivery :=
  ⟨⟨4, 1, 4, 1, [1], [1], .member 1 .join 1⟩, [(.create, exD1.event)]⟩

/-- C6: after persisting the chain E1 ← E2 ← E3 into an empty conversation
the forward-extremity set is exactly the singleton of E3 (the list [3]);
after additionally persisting the concurrent E2q (parent E1) it is exactly
the pair of E3 and E2q (the list [3, 4]). -/
theorem extremity_scenario :
    ((deliverAll emptyServer [exD1, exD2, exD3]).fwd = [3] ∧
      ∀ i, i ∈ (deliverAll emptyServer [exD1, exD2, exD3]).fwd ↔ i = 3) ∧
    ((deliverAll emptyServer [exD1, exD2, exD3, exD2q]).fwd = [3, 4] ∧
      ∀ i, i ∈ (deliverAll emptyServer [exD1, exD2, exD3, exD2q]).fwd ↔ (i = 3 ∨ i = 4)) := by
  have h1 : (deliverAll emptyServer [exD1, exD2, exD3]).fwd = [3] := by decide
  have h2 : (deliverAll emptyServer [exD1, exD2, exD3, exD2q]).fwd = [3, 4] := by decide
  refine ⟨⟨h1, ?_⟩, ⟨h2, ?_⟩⟩ <;> intro i <;> simp [h1, h2]

theorem persistNow_store_fresh (s : Server) (d : Delivery)
    (hfresh : hasId s.store d.event.id = false) :
    (persistNow s d).store = insertStored (mkStored d) s.store := by
  unfold persistNow
  rw [hfresh]
  simp

theorem deliver_pend_branch (s : Server) (d : Delivery)
    (hfresh : hasId s.store d.event.id = false)
    (hpar : parentsPresent s d.event = false) :
    deliver s d =
      { s with
        pending := s.pending ++ [d]
        back := s.back ++ d.event.prevEvents.filter
          (fun p => !(hasId s.store p) && !(s.back.contains p)) } := by
  simp [deliver, deliverR, hfresh, hpar]

theorem deliver_persist_branch (s : Server) (d : Delivery)
    (hfresh : hasId s.store d.event.id = false)
    (hpar : parentsPresent s d.event = true) :
    deliver s d = flushAux (persistNow s d).pending.length (persistNow s d) := by
  simp [deliver, deliverR, hfresh, hpar]

theorem hasId_insertStored_self {x : StoredEvent} {l : List StoredEvent} :
    hasId (insertStored x l) x.event.id = true :=
  List.elem_iff.mpr (mem_storeIds_insertStored.mpr (Or.inl rfl))

theorem hasId_insertStored_ne {x : StoredEvent} {l : List StoredEvent} {i : Nat}
    (hne : x.event.id ≠ i) (h : hasId l i = false) :
    hasId (insertStored x l) i = false := by
  rw [hasId_false_iff]
  intro se hse
  rcases (mem_insertStored x se l).mp hse with rfl | hmem
  · exact hne
  · exact hasId_false_iff.mp h se hmem

/-- C8: delivering an event E whose declared parent P is not in the Event
Store leaves E unpersisted in the PendingBackfill queue and adds P to the
backward-extremity set; when P is later delivered, E automatically becomes
persisted (with its original delivery data) and leaves the pending queue,
without being re-submitted. -/
theorem backfill_closure (s : Server) (dE dP : Delivery)
    (hpend : s.pending = [])
    (hEfresh : hasId s.store dE.event.id = false)
    (hprev : dE.event.prevEvents = [dP.event.id])
    (hPfresh : hasId s.store dP.event.id = false)
    (hne : dE.event.id ≠ dP.event.id)
    (hPpar : parentsPresent s dP.event = true) :
    (hasId (deliver s dE).store dE.event.id = false ∧
      dE ∈ (deliver s dE).pending ∧
      dP.event.id ∈ (deliver s dE).back) ∧
    ((deliver (deliver s dE) dP).lookup dE.event.id = some (mkStored dE) ∧
      (deliver (deliver s dE) dP).pending = []) := by
  have hparE : parentsPresent s dE.event = false := by
    simp [parentsPresent, hprev, hPfresh]
  have hs1 := deliver_pend_branch s dE hEfresh hparE
  have hs1store : (deliver s dE).store = s.store := by rw [hs1]
  have hs1pend : (deliver s dE).pending = [dE] := by rw [hs1, hpend]; rfl
  have hback : dP.event.id ∈ (deliver s dE).back := by
    rw [hs1]
    simp only [List.mem_append]
    by_cases hb : dP.event.id ∈ s.back
    · exact Or.inl hb
    · refine Or.inr (List.mem_filter.mpr ⟨by rw [hprev]; exact List.mem_singleton.mpr rfl, ?_⟩)
      have hbc : s.back.contains dP.event.id = false := by
        rw [← Bool.not_eq_true]
        intro hc
        exact hb (List.elem_iff.mp hc)
      simp only [hPfresh, hbc, Bool.not_false, Bool.and_self]
  refine ⟨⟨by rw [hs1store]; exact hEfresh, by rw [hs1pend]; exact List.mem_singleton.mpr rfl,
      hback⟩, ?_⟩
  have hfresh2 : hasId (deliver s dE).store dP.event.id = false := by
    rw [hs1store]
    exact hPfresh
  have hpp1 : parentsPresent (deliver s dE) dP.event = true := by
    unfold parentsPresent at hPpar ⊢
    rw [hs1store]
    exact hPpar
  have hsPstore : (persistNow (deliver s dE) dP).store = insertStored (mkStored dP) s.store := by
    rw [persistNow_store_fresh (deliver s dE) dP hfresh2, hs1store]
  have hsPpend : (persistNow (deliver s dE) dP).pending = [dE] := by
    rw [persistNow_pending, hs1pend]
  have hPin : hasId (persistNow (deliver s dE) dP).store dP.event.id = true := by
    rw [hsPstore]
    exact hasId_insertStored_self
  have hppE : parentsPresent (persistNow (deliver s dE) dP) dE.event = true := by
    unfold parentsPresent
    rw [hprev]
    simp [hPin]
  have hstep2 := deliver_persist_branch (deliver s dE) dP hfresh2 hpp1
  have hEinP : hasId (persistNow (deliver s dE) dP).store dE.event.id = false := by
    rw [hsPstore]
    exact hasId_insertStored_ne (fun h => hne h.symm) hEfresh
  have hflush : flushAux (persistNow (deliver s dE) dP).pending.length
      (persistNow (deliver s dE) dP) =
      persistNow { persistNow (deliver s dE) dP with pending := [] } dE := by
    rw [hsPpend]
    show flushAux (0 + 1) (persistNow (deliver s dE) dP) = _
    rw [flushAux, hsPpend]
    have hfind : List.find? (fun d => parentsPresent (persistNow (deliver s dE) dP) d.event)
        [dE] = some dE := by
      rw [List.find?_cons_of_pos]
      exact hppE
    have herase : List.eraseP (fun d => parentsPresent (persistNow (deliver s dE) dP) d.event)
        [dE] = [] := by
      rw [List.eraseP_cons_of_pos]
      exact hppE
    rw [hfind, herase]
    rfl
  have hEinP' : hasId ({ persistNow (deliver s dE) dP with
      pending := ([] : List Delivery) }).store dE.event.id = false := hEinP
  have hfinstore : (persistNow { persistNow (deliver s dE) dP with
      pending := ([] : List Delivery) } dE).store =
      insertStored (mkStored dE) (insertStored (mkStored dP) s.store) := by
    rw [persistNow_store_fresh _ dE hEinP']
    congr 1
  constructor
  · rw [hstep2, hflush]
    unfold Server.lookup
    rw [hfinstore]
    apply lookupIn_insertStored_self
    intro se hse
    rcases (mem_insertStored _ se _).mp hse with rfl | hmem
    · exact fun h => hne h.symm
    · exact hasId_false_iff.mp hEfresh se hmem
  · rw [hstep2, hflush, persistNow_pending]

/-- Witness for C8: delivering a child event before its creation-event parent
pends it, and delivering the parent afterwards persists it automatically. -/
theorem backfill_closure_witness :
    (emptyServer.pending = [] ∧
      hasId emptyServer.store exD2.event.id = false ∧
      exD2.event.prevEvents = [exD1.event.id] ∧
      hasId emptyServer.store exD1.event.id = false ∧
      exD2.event.id ≠ exD1.event.id ∧
      parentsPresent emptyServer exD1.event = true) ∧
    ((hasId (deliver emptyServer exD2).store exD2.event.id = false ∧
        exD2 ∈ (deliver emptyServer exD2).pending ∧
        exD1.event.id ∈ (deliver emptyServer exD2).back) ∧
      ((deliver (deliver emptyServer exD2) exD1).lookup exD2.event.id = some (mkStored exD2) ∧
        (deliver (deliver emptyServer exD2) exD1).pending = [])) :=
  ⟨⟨rfl, by decide, by decide, by decide, by decide, by decide⟩,
    backfill_closure emptyServer exD2 exD1 rfl (by decide) (by decide) (by decide)
      (by decide) (by decide)⟩

/-- C10: the schema constants satisfy SCHEMA_COMPAT_VERSION ≤ SCHEMA_VERSION
(61 ≤ 65), so the rollback-compatibility floor this codebase writes never
exceeds the schema version it expects, and the documented refuse-to-start
condition cannot be triggered by a database stamped by this same codebase. -/
theorem schema_versions_compatible :
    SCHEMA_COMPAT_VERSION ≤ SCHEMA_VERSION ∧
    SCHEMA_COMPAT_VERSION = 61 ∧ SCHEMA_VERSION = 65 ∧
    refusesToStart SCHEMA_COMPAT_VERSION = false := by
  decide

theorem keyLt_total_of_ne (a b : SortKey) (h : a.2.2.2 ≠ b.2.2.2) :
    (keyLt a b = true ∧ keyLt b a = false) ∨ (keyLt a b = false ∧ keyLt b a = true) := by
  by_cases hk : keyLt a b = true
  · left
    refine ⟨hk, ?_⟩
    simp only [keyLt, decide_eq_true_eq] at hk
    simp only [keyLt, decide_eq_false_iff_not]
    omega
  · right
    have hk' : keyLt a b = false := by rwa [Bool.not_eq_true] at hk
    refine ⟨hk', ?_⟩
    simp only [keyLt, decide_eq_false_iff_not] at hk'
    simp only [keyLt, decide_eq_true_eq]
    omega

/-- C3: the mainline ordering used by state resolution is a total order on
the events being resolved: for any two events with distinct identifiers, the
comparison by mainline position, then shallower depth, then earlier origin
timestamp, then smaller event identifier orders exactly one of them strictly
before the other. -/
theorem mainline_order_total (lookup : Nat → Option StoredEvent) (ml : List Nat)
    (fuel : Nat) (e1 e2 : Event) (h : e1.id ≠ e2.id) :
    (keyLt (resKey lookup ml fuel e1) (resKey lookup ml fuel e2) = true ∧
      keyLt (resKey lookup ml fuel e2) (resKey lookup ml fuel e1) = false) ∨
    (keyLt (resKey lookup ml fuel e1) (resKey lookup ml fuel e2) = false ∧
      keyLt (resKey lookup ml fuel e2) (resKey lookup ml fuel e1) = true) :=
  keyLt_total_of_ne _ _ h

/-- Witness for C3 at two concrete conflicted events of the scenario. -/
theorem mainline_order_total_witness :
    evJ.id ≠ evM.id ∧
    ((keyLt (resKey (lookupIn scnSrv.store) [] 0 evJ) (resKey (lookupIn scnSrv.store) [] 0 evM) = true ∧
        keyLt (resKey (lookupIn scnSrv.store) [] 0 evM) (resKey (lookupIn scnSrv.store) [] 0 evJ) = false) ∨
      (keyLt (resKey (lookupIn scnSrv.store) [] 0 evJ) (resKey (lookupIn scnSrv.store) [] 0 evM) = false ∧
        keyLt (resKey (lookupIn scnSrv.store) [] 0 evM) (resKey (lookupIn scnSrv.store) [] 0 evJ) = true)) :=
  ⟨by decide, mainline_order_total (lookupIn scnSrv.store) [] 0 evJ evM (by decide)⟩

/-- Modelled from the spec: the extremity invariant of section 3 — every
persisted event not in the forward-extremity set has at least one persisted
child, and every identifier in the backward-extremity set is absent from the
Event Store. -/
def ExtremityInv (s : Server) : Prop :=
  (∀ se ∈ s.store, se.event.id ∉ s.fwd →
    ∃ ch ∈ s.store, se.event.id ∈ ch.event.prevEvents) ∧
  (∀ i ∈ s.back, hasId s.store i = false)

theorem extremityInv_persistNow (s : Server) (d : Delivery) (h : ExtremityInv s) :
    ExtremityInv (persistNow s d) := by
  unfold persistNow
  split
  · exact h
  · constructor
    · intro se hse hnf
      rcases (mem_insertStored _ se _).mp hse with rfl | hmem
      · exact absurd ((mem_insertId _ _ _).mpr (Or.inl rfl)) hnf
      · by_cases hf : se.event.id ∈ s.fwd
        · have hfil : se.event.id ∉
              s.fwd.filter (fun i => !(d.event.prevEvents.contains i)) := fun hc =>
            hnf ((mem_insertId _ _ _).mpr (Or.inr hc))
          have hnb : ¬((!(d.event.prevEvents.contains se.event.id)) = true) := fun hb =>
            hfil (List.mem_filter.mpr ⟨hf, hb⟩)
          have hb : d.event.prevEvents.contains se.event.id = true := by
            rw [Bool.not_eq_true'] at hnb
            cases hc : d.event.prevEvents.contains se.event.id with
            | false => exact absurd hc hnb
            | true => rfl
          exact ⟨mkStored d, (mem_insertStored _ _ _).mpr (Or.inl rfl), List.elem_iff.mp hb⟩
        · obtain ⟨ch, hch, hchp⟩ := h.1 se hmem hf
          exact ⟨ch, (mem_insertStored _ _ _).mpr (Or.inr hch), hchp⟩
    · intro i hi
      have hmem := List.mem_filter.mp hi
      have hne : i ≠ d.event.id := by simpa using hmem.2
      exact hasId_insertStored_ne (fun hc => hne hc.symm) (h.2 i hmem.1)

theorem extremityInv_flushAux : ∀ (n : Nat) (s : Server),
    ExtremityInv s → ExtremityInv (flushAux n s) := by
  intro n
  induction n with
  | zero => intro s h; exact h
  | succ m ih =>
    intro s h
    rcases hf : s.pending.find? (fun d => parentsPresent s d.event) with _ | d
    · rw [flushAux, hf]
      exact h
    · rw [flushAux, hf]
      exact ih _ (extremityInv_persistNow _ _ ⟨h.1, h.2⟩)

theorem extremityInv_deliver (s : Server) (d : Delivery) (h : ExtremityInv s) :
    ExtremityInv (deliver s d) := by
  unfold deliver deliverR
  split
  · exact h
  · split
    · exact extremityInv_flushAux _ _ (extremityInv_persistNow _ _ h)
    · constructor
      · exact h.1
      · intro i hi
        rcases List.mem_append.mp hi with hi | hi
        · exact h.2 i hi
        · have hmem := List.mem_filter.mp hi
          have hb : (!(hasId s.store i) && !(s.back.contains i)) = true := hmem.2
          rw [Bool.and_eq_true] at hb
          rw [Bool.not_eq_true'] at hb
          exact hb.1

theorem extremityInv_deliverAll : ∀ (ds : List Delivery) (s : Server),
    ExtremityInv s → ExtremityInv (deliverAll s ds) := by
  intro ds
  induction ds with
  | nil => intro s h; exact h
  | cons d rest ih =>
    intro s h
    exact ih (deliver s d) (extremityInv_deliver s d h)

/-- C7: the extremity invariant holds in every state reachable by delivering
any sequence of events to a fresh server instance — every persisted event not
in the forward-extremity set has a persisted child, and every identifier in
the backward-extremity set is absent from the Event Store. -/
theorem extremity_invariant (ds : List Delivery) :
    ExtremityInv (deliverAll emptyServer ds) :=
  extremityInv_deliverAll ds emptyServer
    ⟨fun se h => absurd h (List.not_mem_nil se), fun i h => absurd h (List.not_mem_nil i)⟩

theorem findSome?_some_mem {α β : Type} {f : α → Option β} :
    ∀ {l : List α} {b : β}, l.findSome? f = some b → ∃ a ∈ l, f a = some b := by
  intro l
  induction l with
  | nil => intro b h; cases h
  | cons x xs ih =>
    intro b h
    rw [List.findSome?_cons] at h
    cases hx : f x with
    | some c =>
      rw [hx] at h
      exact ⟨x, List.mem_cons_self x xs, by rw [hx]; exact h⟩
    | none =>
      rw [hx] at h
      obtain ⟨a, ha, hfa⟩ := ih h
      exact ⟨a, List.mem_cons_of_mem x ha, hfa⟩

theorem findSome?_isSome_of_mem {α β : Type} {f : α → Option β} :
    ∀ {l : List α} {a : α} {b : β}, a ∈ l → f a = some b → ∃ c, l.findSome? f = some c := by
  intro l
  induction l with
  | nil => intro a b ha _; cases ha
  | cons x xs ih =>
    intro a b ha hf
    rw [List.findSome?_cons]
    cases hx : f x with
    | some c => exact ⟨c, rfl⟩
    | none =>
      rcases List.mem_cons.mp ha with rfl | ha'
      · rw [hx] at hf
        cases hf
      · exact ih ha' hf

theorem entryViol_tpth_inv {sp : Int} {old : Nat → Int} {sender : Nat} {pr : Nat × Int} {p : Nat}
    (h : entryViol sp old sender pr = some (.targetPowerTooHigh p)) :
    pr.1 = p ∧ pr.1 ≠ sender ∧ ¬(pr.2 ≤ sp ∧ (pr.2 = old pr.1 ∨ old pr.1 < sp)) := by
  unfold entryViol at h
  split at h
  · split at h <;> simp at h
  · rename_i h1
    split at h
    · simp at h
    · rename_i h2
      have hinj := Option.some.inj h
      have hpeq := AuthFailure.targetPowerTooHigh.inj hinj
      exact ⟨hpeq, h1, h2⟩

theorem entryViol_mono (sp : Int) (old oldq : Nat → Int) (sender : Nat) (pr : Nat × Int)
    (hne : pr.1 ≠ sender)
    (hviol : ¬(pr.2 ≤ sp ∧ (pr.2 = old pr.1 ∨ old pr.1 < sp)))
    (hmono : old pr.1 ≤ oldq pr.1) :
    entryViol sp oldq sender pr = some (.targetPowerTooHigh pr.1) := by
  unfold entryViol
  rw [if_neg hne, if_neg (show ¬(pr.2 ≤ sp ∧ (pr.2 = oldq pr.1 ∨ oldq pr.1 < sp)) by omega)]

theorem checkPowerEntries_tpth_inv {sp : Int} {old : Nat → Int} {sender : Nat}
    {ls : List (Nat × Int)} {p : Nat}
    (h : checkPowerEntries sp old sender ls = some (.targetPowerTooHigh p)) :
    ∃ pr ∈ ls, pr.1 = p ∧ pr.1 ≠ sender ∧
      ¬(pr.2 ≤ sp ∧ (pr.2 = old pr.1 ∨ old pr.1 < sp)) := by
  obtain ⟨pr, hmem, hpr⟩ := findSome?_some_mem h
  obtain ⟨h1, h2, h3⟩ := entryViol_tpth_inv hpr
  exact ⟨pr, hmem, h1, h2, h3⟩

theorem checkPowerEntries_mono (sp : Int) (old oldq : Nat → Int) (sender : Nat)
    (ls : List (Nat × Int)) (p : Nat)
    (hinv : ∃ pr ∈ ls, pr.1 = p ∧ pr.1 ≠ sender ∧
      ¬(pr.2 ≤ sp ∧ (pr.2 = old pr.1 ∨ old pr.1 < sp)))
    (hmono : old p ≤ oldq p) :
    ∃ c, checkPowerEntries sp oldq sender ls = some c := by
  obtain ⟨pr, hmem, hpeq, hne, hviol⟩ := hinv
  have hv := entryViol_mono sp old oldq sender pr hne hviol (by rw [hpeq]; exact hmono)
  exact findSome?_isSome_of_mem hmem hv

theorem checkMember_tpth_inv {S : StateSnapshot} {sender t : Nat} {m : MembState} {p : Nat}
    (h : checkMember S sender t m = .error (.targetPowerTooHigh p)) :
    t = p ∧ t ≠ sender ∧ membershipOf S sender = some .join ∧
    (m = .ban ∨ m = .leave) ∧
    ¬(powerOf S sender < 50) ∧ ¬(powerOf S t < powerOf S sender) := by
  unfold checkMember at h
  split at h
  · exfalso
    repeat' split at h
    all_goals simp at h
  · rename_i hts
    split at h
    · simp at h
    · rename_i hj
      have hjoin : membershipOf S sender = some .join := not_not.mp hj
      split at h
      · split at h <;> simp at h
      · split at h
        · simp at h
        · split at h
          · simp at h
          · rename_i h50 hge
            have hinj : AuthFailure.targetPowerTooHigh t = .targetPowerTooHigh p :=
              Except.error.inj h
            exact ⟨AuthFailure.targetPowerTooHigh.inj hinj, hts, hjoin, Or.inl rfl, h50, hge⟩
      · split at h
        · simp at h
        · split at h
          · simp at h
          · rename_i h50 hge
            have hinj : AuthFailure.targetPowerTooHigh t = .targetPowerTooHigh p :=
              Except.error.inj h
            exact ⟨AuthFailure.targetPowerTooHigh.inj hinj, hts, hjoin, Or.inr rfl, h50, hge⟩
      · simp at h

theorem checkMember_tpth_fwd (S : StateSnapshot) (sender t : Nat) (m : MembState)
    (hts : ¬(t = sender)) (hjoin : membershipOf S sender = some .join)
    (hm : m = .ban ∨ m = .leave)
    (h50 : ¬(powerOf S sender < 50)) (hge : ¬(powerOf S t < powerOf S sender)) :
    checkMember S sender t m = .error (.targetPowerTooHigh t) := by
  have hj2 : ¬(membershipOf S sender ≠ some .join) := fun hcon => hcon hjoin
  rcases hm with rfl | rfl
  · simp only [checkMember, if_neg hts, if_neg hj2, if_neg h50, if_neg hge]
  · simp only [checkMember, if_neg hts, if_neg hj2, if_neg h50, if_neg hge]

/-- Modelled from the spec: a state reachable from S only by adding more
power to principal p — all memberships, the join rule and creation-event
presence are unchanged, every other principal's power level is unchanged,
and p's power level does not decrease. -/
def PowerBump (S Sq : StateSnapshot) (p : Nat) : Prop :=
  (∀ q, membershipOf Sq q = membershipOf S q) ∧
  joinRuleOf Sq = joinRuleOf S ∧
  (getSlot Sq .create).isSome = (getSlot S .create).isSome ∧
  (∀ q, q ≠ p → powerOf Sq q = powerOf S q) ∧
  powerOf S p ≤ powerOf Sq p

/-- C9: an event rejected by the Auth Rule Checker against state S because of
the power level of principal p (failure targetPowerTooHigh p, raised by the
power-level rule or the ban/kick power comparison) is also rejected against
every state reachable from S only by adding more power to that same
principal p. -/
theorem auth_monotone_rejection (e : Event) (S Sq : StateSnapshot) (p : Nat)
    (hrej : authCheck e S = .error (.targetPowerTooHigh p))
    (hb : PowerBump S Sq p) :
    ∃ f, authCheck e Sq = .error f := by
  obtain ⟨hm, hj, hc, hq, hp⟩ := hb
  cases hcc : e.content with
  | create c =>
    exfalso
    simp only [authCheck, hcc] at hrej
    repeat' split at hrej
    all_goals simp at hrej
  | member t m note =>
    simp only [authCheck, hcc] at hrej
    split at hrej
    · simp at hrej
    · rename_i hc1
      split at hrej
      · simp at hrej
      · rename_i hc2
        obtain ⟨rfl, hts, hjoin, hmm, h50, hge⟩ := checkMember_tpth_inv hrej
        have hps : powerOf Sq e.sender = powerOf S e.sender :=
          hq e.sender (fun hcon => hts hcon.symm)
        refine ⟨.targetPowerTooHigh t, ?_⟩
        simp only [authCheck, hcc]
        rw [hc, hm, if_neg hc1, if_neg hc2]
        refine checkMember_tpth_fwd Sq e.sender t m hts (by rw [hm]; exact hjoin) hmm ?_ ?_
        · rw [hps]
          exact h50
        · rw [hps]
          have hmono := hp
          intro hcon
          exact hge (by omega)
  | power ls =>
    simp only [authCheck, hcc] at hrej
    split at hrej
    · simp at hrej
    · rename_i hc1
      split at hrej
      · simp at hrej
      · rename_i hc2
        split at hrej
        · simp at hrej
        · rename_i hc3
          split at hrej
          · simp at hrej
          · rename_i hc4
            rcases hce : checkPowerEntries (powerOf S e.sender) (powerOf S) e.sender ls with
              _ | f
            · rw [hce] at hrej
              simp at hrej
            · rw [hce] at hrej
              have hferr : f = .targetPowerTooHigh p := Except.error.inj hrej
              rw [hferr] at hce
              have hinv := checkPowerEntries_tpth_inv hce
              obtain ⟨pr, hmem, hpeq, hne, hviol⟩ := hinv
              have hpns : p ≠ e.sender := by rw [← hpeq]; exact hne
              have hps : powerOf Sq e.sender = powerOf S e.sender :=
                hq e.sender (fun hcon => hpns hcon.symm)
              obtain ⟨cq, hcq⟩ := checkPowerEntries_mono (powerOf S e.sender) (powerOf S)
                (powerOf Sq) e.sender ls p ⟨pr, hmem, hpeq, hne, hviol⟩ hp
              refine ⟨cq, ?_⟩
              simp only [authCheck, hcc]
              rw [hc, hm, hps, if_neg hc1, if_neg hc2, if_neg hc3, if_neg hc4, hcq]
  | joinRules r =>
    exfalso
    simp only [authCheck, hcc] at hrej
    repeat' split at hrej
    all_goals simp at hrej
  | message b =>
    exfalso
    simp only [authCheck, hcc] at hrej
    repeat' split at hrej
    all_goals simp at hrej

/-- Concrete instance for the auth-monotonicity witness: membership part
shared by both snapshots. -/
def c9Pre : StateSnapshot := [(.create, evC), (.member 1, evJA), (.member 2, evJ)]

def c9PLa : Event := ⟨20, 1, 8, 6, [5], [1, 3], .power [(1, 60), (2, 80)]⟩

def c9PLb : Event := ⟨21, 1, 8, 6, [5], [1, 3], .power [(1, 60), (2, 90)]⟩

def c9S : StateSnapshot := c9Pre ++ [(.power, c9PLa)]

def c9Sq : StateSnapshot := c9Pre ++ [(.power, c9PLb)]

/-- The rejected event of the witness: principal 1 (level 60) tries to demote
principal 2, whose current level 80 (bumped to 90) is above 1's own. -/
def c9e : Event := ⟨30, 1, 9, 9, [5], [1, 3], .power [(2, 10)]⟩

theorem c9bump : PowerBump c9S c9Sq 2 := by
  refine ⟨?_, rfl, rfl, ?_, by decide⟩
  · intro q
    unfold membershipOf getSlot c9S c9Sq
    rw [List.find?_append, List.find?_append]
    have ha : List.find? (fun p => decide (p.1 = SlotT.member q)) [(.power, c9PLa)] = none := rfl
    have hb : List.find? (fun p => decide (p.1 = SlotT.member q)) [(.power, c9PLb)] = none := rfl
    rw [ha, hb]
  · intro q hq
    by_cases h1 : q = 1
    · subst h1
      decide
    · have h1' : ¬(1 = q) := fun hcon => h1 hcon.symm
      have hq' : ¬(2 = q) := fun hcon => hq hcon.symm
      simp [powerOf, getSlot, creatorOf, c9S, c9Sq, c9Pre, c9PLa, c9PLb, evC, evJA, evJ,
        h1', hq']

/-- Witness for C9: the concrete demotion attempt is rejected at the base
snapshot with targetPowerTooHigh 2, the second snapshot only adds power to
principal 2, and the event is still rejected there. -/
theorem auth_monotone_rejection_witness :
    authCheck c9e c9S = .error (.targetPowerTooHigh 2) ∧
    PowerBump c9S c9Sq 2 ∧
    ∃ f, authCheck c9e c9Sq = .error f :=
  ⟨by decide, c9bump, auth_monotone_rejection c9e c9S c9Sq 2 (by decide) c9bump⟩

theorem lookupIn_id {store : List StoredEvent} {i : Nat} {se : StoredEvent}
    (h : lookupIn store i = some se) : se.event.id = i := by
  simpa using List.find?_some h

theorem mem_insertByKey (key : Event → SortKey) (x a : Event) :
    ∀ (l : List Event), a ∈ insertByKey key x l ↔ a = x ∨ a ∈ l := by
  intro l
  induction l with
  | nil => simp [insertByKey]
  | cons y ys ih =>
    simp only [insertByKey]
    split
    · simp [List.mem_cons]
    · rw [List.mem_cons, ih, List.mem_cons]
      tauto

theorem mem_sortByKey (key : Event → SortKey) (a : Event) :
    ∀ (l : List Event), a ∈ sortByKey key l ↔ a ∈ l := by
  intro l
  induction l with
  | nil => simp [sortByKey]
  | cons x xs ih =>
    simp only [sortByKey]
    rw [mem_insertByKey, ih, List.mem_cons]

theorem getSlot_mem {snap : StateSnapshot} {sl : SlotT} {ev : Event}
    (h : getSlot snap sl = some ev) : ∃ pr ∈ snap, pr.2 = ev := by
  unfold getSlot at h
  cases hf : snap.find? (fun p => decide (p.1 = sl)) with
  | none => rw [hf] at h; cases h
  | some pr =>
    rw [hf] at h
    exact ⟨pr, List.mem_of_find?_eq_some hf, by simpa using h⟩

theorem unconflictedPart_value {snaps : List StateSnapshot} {pr : SlotT × Event}
    (h : pr ∈ unconflictedPart snaps) :
    ∃ sn ∈ snaps, ∃ pq ∈ sn, pq.2 = pr.2 := by
  unfold unconflictedPart at h
  cases snaps with
  | nil => cases h
  | cons s0 rest =>
    rw [List.mem_filterMap] at h
    obtain ⟨sl, _, hval⟩ := h
    cases hg : getSlot s0 sl with
    | none =>
      simp only [hg] at hval
      cases hval
    | some v =>
      simp only [hg] at hval
      by_cases hag : agreeAll (s0 :: rest) (some v) sl = true
      · rw [if_pos hag] at hval
        have heq := Option.some.inj hval
        obtain ⟨pq, hmem, hpe⟩ := getSlot_mem hg
        exact ⟨s0, List.mem_cons_self _ _, pq, hmem, by rw [← heq]; exact hpe⟩
      · rw [if_neg hag] at hval
        cases hval

theorem foldr_cands_value : ∀ (slots : List SlotT) (snaps : List StateSnapshot) (e : Event),
    e ∈ slots.foldr (fun sl acc => snaps.filterMap (fun s => getSlot s sl) ++ acc) [] →
    ∃ sn ∈ snaps, ∃ pq ∈ sn, pq.2 = e := by
  intro slots
  induction slots with
  | nil => intro snaps e h; cases h
  | cons sl rest ih =>
    intro snaps e h
    rcases List.mem_append.mp h with h | h
    · rw [List.mem_filterMap] at h
      obtain ⟨sn, hsn, hg⟩ := h
      obtain ⟨pq, hpq, hpe⟩ := getSlot_mem hg
      exact ⟨sn, hsn, pq, hpq, hpe⟩
    · exact ih snaps e h

theorem conflictedCands_value {snaps : List StateSnapshot} {e : Event}
    (h : e ∈ conflictedCands snaps) :
    ∃ sn ∈ snaps, ∃ pq ∈ sn, pq.2 = e := by
  unfold conflictedCands at h
  rw [List.mem_dedup] at h
  exact foldr_cands_value _ snaps e h

theorem applyFold_value : ∀ (evs : List Event) (w : StateSnapshot) (pr : SlotT × Event),
    pr ∈ evs.foldl applyEvent w → pr ∈ w ∨ pr.2 ∈ evs := by
  intro evs
  induction evs with
  | nil => intro w pr h; exact Or.inl h
  | cons e rest ih =>
    intro w pr h
    rcases ih (applyEvent w e) pr h with h1 | h1
    · unfold applyEvent at h1
      split at h1
      · split at h1
        · rename_i sl _
          unfold setSlot at h1
          rcases List.mem_cons.mp h1 with rfl | h2
          · exact Or.inr (List.mem_cons_self e rest)
          · exact Or.inl (List.mem_of_mem_filter h2)
        · exact Or.inl h1
      · exact Or.inl h1
    · exact Or.inr (List.mem_cons_of_mem e h1)

theorem resolveStates_value {lookup : Nat → Option StoredEvent} {fuel : Nat}
    {snaps : List StateSnapshot} {pr : SlotT × Event}
    (h : pr ∈ resolveStates lookup fuel snaps) :
    ∃ sn ∈ snaps, ∃ pq ∈ sn, pq.2 = pr.2 := by
  simp only [resolveStates, resolveCore] at h
  rcases applyFold_value _ _ _ h with h1 | h1
  · rcases applyFold_value _ _ _ h1 with h2 | h2
    · exact unconflictedPart_value h2
    · exact conflictedCands_value (List.mem_of_mem_filter ((mem_sortByKey _ _ _).mp h2))
  · exact conflictedCands_value (List.mem_of_mem_filter ((mem_sortByKey _ _ _).mp h1))

/-- A snapshot is good when every event it assigns to a slot is stored and
not marked rejected: the formal content of "rejected events are excluded
from all state snapshots". -/
def GoodSnap (lookup : Nat → Option StoredEvent) (snap : StateSnapshot) : Prop :=
  ∀ pr ∈ snap, ∃ se, lookup pr.2.id = some se ∧ se.rejected = false

theorem goodSnap_resolve {lookup : Nat → Option StoredEvent} {fuel : Nat}
    {snaps : List StateSnapshot}
    (h : ∀ sn ∈ snaps, GoodSnap lookup sn) :
    GoodSnap lookup (resolveStates lookup fuel snaps) := by
  intro pr hpr
  obtain ⟨sn, hsn, pq, hpq, hpe⟩ := resolveStates_value hpr
  obtain ⟨se, hse, hrej⟩ := h sn hsn pq hpq
  exact ⟨se, by rw [← hpe]; exact hse, hrej⟩

theorem stateAfterF_good (lookup : Nat → Option StoredEvent)
    (hlk : ∀ (i : Nat) (se : StoredEvent), lookup i = some se → se.event.id = i) :
    ∀ (fuel i : Nat), GoodSnap lookup (stateAfterF lookup fuel i) := by
  intro fuel
  induction fuel with
  | zero => intro i pr hpr; cases hpr
  | succ n ih =>
    intro i
    rcases hl : lookup i with _ | se
    · simp only [stateAfterF, hl]
      intro pr hpr
      simp at hpr
    · simp only [stateAfterF, hl]
      have hbase : GoodSnap lookup (resolveStates lookup (n + 1)
          (se.event.prevEvents.map (fun p => stateAfterF lookup n p))) := by
        apply goodSnap_resolve
        intro sn hsn
        obtain ⟨p, _, rfl⟩ := List.mem_map.mp hsn
        exact ih p
      by_cases hrj : se.rejected = true
      · rw [if_pos hrj]
        exact hbase
      · rw [if_neg hrj]
        rw [Bool.not_eq_true] at hrj
        rcases hslot : se.event.slot with _ | sl
        · exact hbase
        · show GoodSnap lookup (setSlot (resolveStates lookup (n + 1)
            (se.event.prevEvents.map (fun p => stateAfterF lookup n p))) sl se.event)
          intro pr hpr
          have hpr' : pr ∈ (sl, se.event) :: (resolveStates lookup (n + 1)
              (se.event.prevEvents.map (fun p => stateAfterF lookup n p))).filter
              (fun p => decide (p.1 ≠ sl)) := hpr
          rcases List.mem_cons.mp hpr' with rfl | hmem
          · refine ⟨se, ?_, hrj⟩
            rw [show ((sl, se.event) : SlotT × Event).2.id = se.event.id from rfl,
              hlk i se hl]
            exact hl
          · exact hbase pr (List.mem_of_mem_filter hmem)

theorem currentState_good (store : List StoredEvent) :
    GoodSnap (lookupIn store) (currentStateOf store) := by
  show GoodSnap (lookupIn store) (resolveStates (lookupIn store) (store.length + 1)
    ((derivedFwd store).map (fun i => stateAfterF (lookupIn store) (store.length + 1) i)))
  apply goodSnap_resolve
  intro sn hsn
  obtain ⟨i, _, rfl⟩ := List.mem_map.mp hsn
  exact stateAfterF_good (lookupIn store) (fun i se h => lookupIn_id h) _ i

theorem mainlineWalk_not_rejected (lookup : Nat → Option StoredEvent) (rid : Nat)
    (sr : StoredEvent) (hr : lookup rid = some sr) (hrej : sr.rejected = true) :
    ∀ (fuel : Nat) (start : Option Nat), rid ∉ mainlineWalk lookup fuel start := by
  intro fuel
  induction fuel with
  | zero => intro start h; simp [mainlineWalk] at h
  | succ n ih =>
    intro start h
    cases start with
    | none => simp [mainlineWalk] at h
    | some i =>
      rcases hl : lookup i with _ | se
      · simp [mainlineWalk, hl] at h
      · simp only [mainlineWalk, hl] at h
        by_cases hrj : se.rejected = true
        · rw [if_pos hrj] at h
          simp at h
        · rw [if_neg hrj] at h
          rcases List.mem_cons.mp h with rfl | h2
          · rw [hr] at hl
            exact hrj ((Option.some.inj hl) ▸ hrej)
          · exact ih (nextPowerAuth lookup se.event) h2

theorem lookup_persistNow_mono {s : Server} {d : Delivery} {i : Nat} {se : StoredEvent}
    (h : lookupIn s.store i = some se) : lookupIn (persistNow s d).store i = some se := by
  unfold persistNow
  split
  · exact h
  · rename_i hfresh
    rw [Bool.not_eq_true] at hfresh
    have hne : (mkStored d).event.id ≠ i := by
      intro hc
      have hmem := List.mem_of_find?_eq_some h
      have hid : se.event.id = i := lookupIn_id h
      exact (hasId_false_iff.mp hfresh se hmem) (by rw [hid, ← hc]; rfl)
    show lookupIn (insertStored (mkStored d) s.store) i = some se
    rw [lookupIn_insertStored_ne _ _ _ hne]
    exact h

theorem lookup_flushAux_mono : ∀ (n : Nat) (s : Server) {i : Nat} {se : StoredEvent},
    lookupIn s.store i = some se → lookupIn (flushAux n s).store i = some se := by
  intro n
  induction n with
  | zero => intro s i se h; exact h
  | succ m ih =>
    intro s i se h
    rcases hf : s.pending.find? (fun d => parentsPresent s d.event) with _ | d
    · rw [flushAux, hf]
      exact h
    · rw [flushAux, hf]
      exact ih _ (lookup_persistNow_mono h)

theorem lookup_deliver_mono {s : Server} {d : Delivery} {i : Nat} {se : StoredEvent}
    (h : lookupIn s.store i = some se) : lookupIn (deliver s d).store i = some se := by
  unfold deliver deliverR
  split
  · exact h
  · split
    · exact lookup_flushAux_mono _ _ (lookup_persistNow_mono h)
    · exact h

theorem lookup_deliverAll_mono : ∀ (ds : List Delivery) (s : Server) {i : Nat}
    {se : StoredEvent},
    lookupIn s.store i = some se → lookupIn (deliverAll s ds).store i = some se := by
  intro ds
  induction ds with
  | nil => intro s i se h; exact h
  | cons d rest ih =>
    intro s i se h
    exact ih _ (lookup_deliver_mono h)

/-- C5: an event that fails the Auth Rule Checker is still persisted but
permanently marked rejected, and thereafter — in every future server state —
it is excluded from every state snapshot, is never usable on the power
mainline as an auth-event, and is never returned by current_state. -/
theorem rejected_event_quarantine (s : Server) (d : Delivery) (f : AuthFailure)
    (hrej : authCheck d.event d.snap = .error f)
    (hfresh : hasId s.store d.event.id = false)
    (hpar : parentsPresent s d.event = true) :
    ((deliver s d).lookup d.event.id = some ⟨d.event, true⟩) ∧
    (∀ ds, (deliverAll (deliver s d) ds).lookup d.event.id = some ⟨d.event, true⟩) ∧
    (∀ ds fuel i sl ev,
      getSlot (stateAfterF (lookupIn (deliverAll (deliver s d) ds).store) fuel i) sl =
        some ev → ev.id ≠ d.event.id) ∧
    (∀ ds sl ev,
      getSlot (currentStateOf (deliverAll (deliver s d) ds).store) sl = some ev →
      ev.id ≠ d.event.id) ∧
    (∀ ds fuel start,
      d.event.id ∉ mainlineWalk (lookupIn (deliverAll (deliver s d) ds).store) fuel start) := by
  have hmk : mkStored d = ⟨d.event, true⟩ := by
    unfold mkStored
    rw [hrej]
  have h0 : lookupIn (persistNow s d).store d.event.id = some (⟨d.event, true⟩ : StoredEvent) := by
    rw [persistNow_store_fresh s d hfresh, ← hmk]
    exact lookupIn_insertStored_self (mkStored d) s.store (hasId_false_iff.mp hfresh)
  have h1 : (deliver s d).lookup d.event.id = some (⟨d.event, true⟩ : StoredEvent) := by
    show lookupIn (deliver s d).store d.event.id = some (⟨d.event, true⟩ : StoredEvent)
    rw [deliver_persist_branch s d hfresh hpar]
    exact lookup_flushAux_mono _ _ h0
  have h2 : ∀ ds, lookupIn (deliverAll (deliver s d) ds).store d.event.id =
      some (⟨d.event, true⟩ : StoredEvent) := fun ds => lookup_deliverAll_mono ds _ h1
  refine ⟨h1, h2, ?_, ?_, ?_⟩
  · intro ds fuel i sl ev hget hc
    obtain ⟨pr, hpr, hpe⟩ := getSlot_mem hget
    obtain ⟨se, hse, hserej⟩ :=
      stateAfterF_good (lookupIn (deliverAll (deliver s d) ds).store)
        (fun i se h => lookupIn_id h) fuel i pr hpr
    rw [hpe, hc, h2 ds] at hse
    rw [← Option.some.inj hse] at hserej
    cases hserej
  · intro ds sl ev hget hc
    obtain ⟨pr, hpr, hpe⟩ := getSlot_mem hget
    obtain ⟨se, hse, hserej⟩ := currentState_good (deliverAll (deliver s d) ds).store pr hpr
    rw [hpe, hc, h2 ds] at hse
    rw [← Option.some.inj hse] at hserej
    cases hserej
  · intro ds fuel start
    exact mainlineWalk_not_rejected _ _ _ (h2 ds) rfl fuel start

/-- The auth-failing delivery of the quarantine witness: a message by
principal 3, who never joined the scenario conversation. -/
def c5bad : Delivery := ⟨⟨40, 3, 10, 6, [5], [1, 3], .message 0⟩, snapTip⟩

/-- Witness for C5 at the scenario conversation. -/
theorem rejected_event_quarantine_witness :
    (authCheck c5bad.event c5bad.snap = .error .senderNotJoined ∧
      hasId scnSrv.store c5bad.event.id = false ∧
      parentsPresent scnSrv c5bad.event = true) ∧
    (((deliver scnSrv c5bad).lookup c5bad.event.id = some ⟨c5bad.event, true⟩) ∧
      (∀ ds, (deliverAll (deliver scnSrv c5bad) ds).lookup c5bad.event.id =
        some ⟨c5bad.event, true⟩) ∧
      (∀ ds fuel i sl ev,
        getSlot (stateAfterF (lookupIn (deliverAll (deliver scnSrv c5bad) ds).store) fuel i)
          sl = some ev → ev.id ≠ c5bad.event.id) ∧
      (∀ ds sl ev,
        getSlot (currentStateOf (deliverAll (deliver scnSrv c5bad) ds).store) sl = some ev →
        ev.id ≠ c5bad.event.id) ∧
      (∀ ds fuel start, c5bad.event.id ∉
        mainlineWalk (lookupIn (deliverAll (deliver scnSrv c5bad) ds).store) fuel start)) :=
  ⟨⟨by decide, by decide, by decide⟩,
    rejected_event_quarantine scnSrv c5bad .senderNotJoined (by decide) (by decide) (by decide)⟩

end Syn
